import Mathlib

/-!
Shallow embedding of the rate-limited concurrent API access layer of the
repository (files `app/clients/rate_limiter.py`, `app/clients/api_clients.py`,
`app/config.py`), together with theorems settling the specification claims
about it.

Modelling conventions:
* monotonic-clock instants (`time.monotonic()` floats) are rationals `ℚ`;
* token counts and HTTP status codes are naturals `ℕ`;
* `deque`s are Lean lists, front = index 0 (so `popleft` is dropping the head
  and `append` is appending at the back);
* `async` control flow is modelled by explicit state passing; a Python
  exception is an `Except` error value;
* the asyncio semaphore is modelled by the number of permits currently held
  by callers, together with an explicit count of `release` invocations.
-/

namespace RateLimiterModel

/-! ## Constants from `app/config.py` -/

def DEFAULT_WINDOW_SIZE : ℚ := 60

def DEFAULT_TOKEN_ESTIMATION_RATIO : ℕ := 4

def DEFAULT_SAFETY_MARGIN : ℚ := 1

/-- `RateLimitConfig` from `app/config.py` (the fields the core reads). -/
structure RateLimitConfig where
  requests_per_minute : ℕ := 50
  tokens_per_minute : ℕ := 40000
  max_concurrent_requests : ℕ := 5
  max_retries : ℕ := 3
deriving Repr, DecidableEq

/-! ## Retrying request executor, `BaseAPIClient._request_with_retry`
(`app/clients/api_clients.py`, lines 27–64).

One attempt of the transport either yields an HTTP response with some status
code, or fails at the network level (timeout / connection error).  The
transport is a function from the attempt index to its outcome. -/

/-- Outcome of one call of `self.client.request`. -/
inductive AttemptOutcome
  | resp (status : ℕ)
  | timeout
  | connError
deriving Repr, DecidableEq

/-- The `httpx` errors the executor can raise.  `statusErr` is
`httpx.HTTPStatusError`; all three are subclasses of `httpx.HTTPError`
(with `timeoutErr` also a `httpx.TimeoutException`), so all three are
caught by the `except (httpx.HTTPError, httpx.TimeoutException)` clause. -/
inductive HttpErr
  | statusErr (status : ℕ)
  | timeoutErr
  | connErr
deriving Repr, DecidableEq

/-- The status codes the executor treats as retry-worthy (line 46). -/
def RETRYABLE_STATUSES : List ℕ := [429, 500, 502, 503, 504]

/-- The body of one `for` iteration in `_request_with_retry` up to the
`except` clause: perform the request; if the status is retry-worthy raise an
`HTTPStatusError`; otherwise `raise_for_status` (which in `httpx` raises
`HTTPStatusError` for every non-2xx response) and return the response. -/
def attemptOnce (o : AttemptOutcome) : Except HttpErr ℕ :=
  match o with
  | .resp s =>
      if s ∈ RETRYABLE_STATUSES then .error (.statusErr s)
      else if 200 ≤ s ∧ s < 300 then .ok s
      else .error (.statusErr s)
  | .timeout => .error .timeoutErr
  | .connError => .error .connErr

/-- The error carried by a failing attempt outcome. -/
def errOf : AttemptOutcome → HttpErr
  | .resp s => .statusErr s
  | .timeout => .timeoutErr
  | .connError => .connErr

/-- The retry loop of `_request_with_retry`, with `fuel` = the number of
retries still available (`max_retries - attempt`).  Every error raised by an
attempt is caught by the `except (httpx.HTTPError, httpx.TimeoutException)`
clause; when `attempt == max_retries` (fuel 0) it is re-raised, otherwise the
executor backs off and retries.  Returns the result together with the total
number of attempts performed. -/
def requestWithRetryGo (transport : ℕ → AttemptOutcome) (attempt : ℕ) :
    ℕ → Except HttpErr ℕ × ℕ
  | 0 =>
      match attemptOnce (transport attempt) with
      | .ok s => (.ok s, 1)
      | .error e => (.error e, 1)
  | fuel + 1 =>
      match attemptOnce (transport attempt) with
      | .ok s => (.ok s, 1)
      | .error _ =>
          let r := requestWithRetryGo transport (attempt + 1) fuel
          (r.1, r.2 + 1)

/-- `BaseAPIClient._request_with_retry`: `for attempt in range(max_retries+1)`.
Returns the result and the number of attempts performed. -/
def requestWithRetry (transport : ℕ → AttemptOutcome) (max_retries : ℕ) :
    Except HttpErr ℕ × ℕ :=
  requestWithRetryGo transport 0 max_retries

/-- An attempt outcome the spec classifies as a retryable failure:
HTTP status in {429, 500, 502, 503, 504}, a timeout, or a connection error. -/
def IsRetryableFailure : AttemptOutcome → Prop
  | .resp s => s ∈ RETRYABLE_STATUSES
  | .timeout => True
  | .connError => True

instance : DecidablePred IsRetryableFailure := by
  intro o
  cases o with
  | resp s => exact inferInstanceAs (Decidable (s ∈ RETRYABLE_STATUSES))
  | timeout => exact inferInstanceAs (Decidable True)
  | connError => exact inferInstanceAs (Decidable True)

/-! ## `TokenTracker` (`app/clients/rate_limiter.py`, lines 11–41).

State = the `usage_history` deque of `(timestamp, tokens_used)` pairs together
with the window size.  The `asyncio.Lock` makes each method body atomic; in
this sequential model each method is one atomic state transition. -/

structure TokenTracker where
  window_size : ℚ := DEFAULT_WINDOW_SIZE
  usage_history : List (ℚ × ℕ) := []
deriving Repr, DecidableEq

/-- `TokenTracker.add_usage` (lines 19–28): append `(now, tokens)` at the
back, then `popleft` entries from the front while the front timestamp is
strictly below `now - window_size`. -/
def TokenTracker.add_usage (tt : TokenTracker) (now : ℚ) (tokens : ℕ) :
    TokenTracker :=
  let hist := tt.usage_history ++ [(now, tokens)]
  let cutoff := now - tt.window_size
  { tt with usage_history := hist.dropWhile (fun p => p.1 < cutoff) }

/-- `TokenTracker.get_usage_in_window` (lines 30–41): iterate over the whole
history and sum the tokens of entries with `timestamp >= cutoff`.  The method
mutates nothing. -/
def TokenTracker.get_usage_in_window (tt : TokenTracker) (now : ℚ) : ℕ :=
  let cutoff := now - tt.window_size
  tt.usage_history.foldl
    (fun total p => if cutoff ≤ p.1 then total + p.2 else total) 0

/-- Modelled from the claim wording of C9 (and spec §4.1), for comparison
with the code: prune the ledger of all records older than the cutoff, sum
the remainder, return the new ledger and the total. -/
def getUsageInWindowSpec (tt : TokenTracker) (now : ℚ) : TokenTracker × ℕ :=
  let cutoff := now - tt.window_size
  let kept := tt.usage_history.filter (fun p => cutoff ≤ p.1)
  ({ tt with usage_history := kept }, (kept.map Prod.snd).sum)

/-! ## `RateLimiter` admission steps
(`app/clients/rate_limiter.py`, lines 44–126). -/

/-- The front-pruning of the `request_times` deque (lines 92–93):
`while self.request_times and self.request_times[0] < cutoff: popleft()`. -/
def pruneTimes (times : List ℚ) (cutoff : ℚ) : List ℚ :=
  times.dropWhile (fun t => t < cutoff)

/-- One iteration of the `while True` loop body of
`RateLimiter._wait_for_rate_limit` (lines 85–101), executed under the lock:
prune out-of-window start times; if the remaining count is under the cap,
admission succeeds (`none`); otherwise compute how long until the oldest
surviving timestamp falls out of the window (`some wait_time`); the caller
then sleeps that long (plus jitter) outside the lock — or merely yields when
the wait is zero — and re-checks. -/
def waitForRateLimitStep (rpm : ℕ) (times : List ℚ) (now : ℚ) :
    List ℚ × Option ℚ :=
  let cutoff := now - DEFAULT_WINDOW_SIZE
  let pruned := pruneTimes times cutoff
  if pruned.length < rpm then (pruned, none)
  else
    let oldest := pruned.headD 0
    (pruned, some (max 0 (DEFAULT_WINDOW_SIZE - (now - oldest) + DEFAULT_SAFETY_MARGIN)))

/-- One iteration of the `while True` loop body of
`RateLimiter._wait_for_token_limit` (lines 113–126): read the current usage
from the tracker; if `current_usage + estimated_tokens` exceeds the
tokens-per-minute cap, sleep a full window (`some DEFAULT_WINDOW_SIZE`) and
re-check; otherwise admission succeeds (`none`). -/
def waitForTokenLimitStep (tpm : ℕ) (tt : TokenTracker) (now : ℚ)
    (estimated_tokens : ℕ) : Option ℚ :=
  let current_usage := tt.get_usage_in_window now
  if tpm < current_usage + estimated_tokens then some DEFAULT_WINDOW_SIZE
  else none

/-! ## Sequential trace model of the limiter state
(`RateLimiter.acquire` lines 54–72, `RateLimiter.release` lines 74–80).

In a sequential (non-interleaved) execution each `acquire` runs both
admission checks and the timestamp recording without any other task
interleaving; `release` records actual usage.  `seqAcquire` performs one
such `acquire` attempt at instant `now`: if either admission check would
block, the state keeps the pruning performed by the rate-limit check and the
attempt is reported as not admitted (`false`). -/

structure LimiterState where
  request_times : List ℚ := []
  tracker : TokenTracker := {}
deriving Repr, DecidableEq

/-- One sequential `acquire` attempt at instant `now`: run the
requests-per-minute check (which prunes), then the tokens-per-minute check,
and on admission append `now` to `request_times` (lines 64–66). -/
def seqAcquire (cfg : RateLimitConfig) (s : LimiterState) (now : ℚ)
    (estimated_tokens : ℕ) : LimiterState × Bool :=
  let rl := waitForRateLimitStep cfg.requests_per_minute s.request_times now
  if rl.2 = none then
    if waitForTokenLimitStep cfg.tokens_per_minute s.tracker now
        estimated_tokens = none then
      ({ s with request_times := rl.1 ++ [now] }, true)
    else ({ s with request_times := rl.1 }, false)
  else ({ s with request_times := rl.1 }, false)

/-- `RateLimiter.release` (lines 74–80) as a state transition: if
`actual_tokens > 0` the scheduled `add_usage` task eventually runs; we let it
run at instant `now`. -/
def seqRelease (s : LimiterState) (now : ℚ) (actual_tokens : ℕ) :
    LimiterState :=
  if 0 < actual_tokens then
    { s with tracker := s.tracker.add_usage now actual_tokens }
  else s

/-- Events of a sequential acquire/release history. -/
inductive LimiterEvent
  | acquire (now : ℚ) (estimated_tokens : ℕ)
  | release (now : ℚ) (actual_tokens : ℕ)
deriving Repr, DecidableEq

/-- Run one event against the limiter state. -/
def LimiterState.step (cfg : RateLimitConfig) (s : LimiterState) :
    LimiterEvent → LimiterState
  | .acquire now est => (seqAcquire cfg s now est).1
  | .release now tokens => seqRelease s now tokens

/-- Run a whole event history from a starting state. -/
def runEvents (cfg : RateLimitConfig) (s : LimiterState)
    (es : List LimiterEvent) : LimiterState :=
  es.foldl (LimiterState.step cfg) s

/-- The number of recorded request timestamps lying within the trailing
window ending at instant `t`. -/
def countInWindow (times : List ℚ) (t : ℚ) : ℕ :=
  (times.filter (fun x => t - DEFAULT_WINDOW_SIZE ≤ x)).length

/-! ## Semaphore accounting of `RateLimiter.acquire` / `release` and the
`RateLimitedLLMClient` wrapper (`app/clients/rate_limiter.py`, lines 54–80
and 129–179).

The inner waits of `acquire` (the two admission loops and the lock waits) are
abstracted as one `Except` outcome `innerWaits`; the wrapped raw client call
is abstracted as the `Except` outcome `raw`.  Each run records the net change
in semaphore permits held by the caller (`heldDelta`), how many times
`request_semaphore.release()` was invoked (`semReleases`), the argument
passed to `RateLimiter.acquire`, and the arguments of every
`RateLimiter.release` call, in order. -/

structure AcquireRun (ε : Type) where
  heldDelta : ℤ
  semReleases : ℕ
  result : Except ε Bool
deriving Repr

/-- `RateLimiter.acquire` (lines 54–72): `await self.request_semaphore.acquire()`
takes one permit; if the admission waits or the recording raise, the
`except` clause releases the permit and re-raises; otherwise the permit
stays held and the method returns `True`. -/
def acquireFlow {ε : Type} (innerWaits : Except ε Unit) : AcquireRun ε :=
  match innerWaits with
  | .ok _ => { heldDelta := 1, semReleases := 0, result := .ok true }
  | .error e => { heldDelta := 1 - 1, semReleases := 1, result := .error e }

structure WrapperRun (ε α : Type) where
  estimated_tokens : ℕ
  acquireArg : ℕ
  releaseArgs : List ℕ
  heldDelta : ℤ
  semReleases : ℕ
  result : Except ε α
deriving Repr

/-- `RateLimitedLLMClient.generate` (lines 136–159): estimate tokens from the
prompt characters, `acquire(estimated_tokens)`, delegate to the raw client;
on success release with `len(result) // 4` plus the estimate and return the
result; on failure `release(0)` and re-raise.  Every `RateLimiter.release`
call releases the semaphore permit (line 76). -/
def generateFlow {ε : Type} (system_prompt user_prompt : String)
    (innerWaits : Except ε Unit) (raw : Except ε String) :
    WrapperRun ε String :=
  let estimated_tokens :=
    (system_prompt ++ user_prompt).length / DEFAULT_TOKEN_ESTIMATION_RATIO
  let acq := acquireFlow innerWaits
  match acq.result with
  | .error e =>
      { estimated_tokens := estimated_tokens, acquireArg := estimated_tokens,
        releaseArgs := [], heldDelta := acq.heldDelta,
        semReleases := acq.semReleases, result := .error e }
  | .ok _ =>
      match raw with
      | .ok result =>
          let actual_tokens :=
            result.length / DEFAULT_TOKEN_ESTIMATION_RATIO + estimated_tokens
          { estimated_tokens := estimated_tokens,
            acquireArg := estimated_tokens, releaseArgs := [actual_tokens],
            heldDelta := acq.heldDelta - 1,
            semReleases := acq.semReleases + 1, result := .ok result }
      | .error e =>
          { estimated_tokens := estimated_tokens,
            acquireArg := estimated_tokens, releaseArgs := [0],
            heldDelta := acq.heldDelta - 1,
            semReleases := acq.semReleases + 1, result := .error e }

/-- `RateLimitedLLMClient.get_embeddings` (lines 161–179): estimate tokens
from the total characters of all texts, `acquire`, delegate; on success
`release(estimated_tokens)` (embeddings reuse the estimate as actual usage)
and return the result; on failure `release(0)` and re-raise. -/
def getEmbeddingsFlow {ε : Type} (texts : List String)
    (innerWaits : Except ε Unit) (raw : Except ε (List (List ℚ))) :
    WrapperRun ε (List (List ℚ)) :=
  let estimated_tokens :=
    (texts.map String.length).sum / DEFAULT_TOKEN_ESTIMATION_RATIO
  let acq := acquireFlow innerWaits
  match acq.result with
  | .error e =>
      { estimated_tokens := estimated_tokens, acquireArg := estimated_tokens,
        releaseArgs := [], heldDelta := acq.heldDelta,
        semReleases := acq.semReleases, result := .error e }
  | .ok _ =>
      match raw with
      | .ok result =>
          let actual_tokens := estimated_tokens
          { estimated_tokens := estimated_tokens,
            acquireArg := estimated_tokens, releaseArgs := [actual_tokens],
            heldDelta := acq.heldDelta - 1,
            semReleases := acq.semReleases + 1, result := .ok result }
      | .error e =>
          { estimated_tokens := estimated_tokens,
            acquireArg := estimated_tokens, releaseArgs := [0],
            heldDelta := acq.heldDelta - 1,
            semReleases := acq.semReleases + 1, result := .error e }

/-! ## Batched embeddings, `LLMClient._get_openai_embeddings_batched`
(`app/clients/api_clients.py`, lines 357–383).

The per-batch network call `_get_openai_embeddings_single_batch` is
abstracted as a function `single` from a batch of texts to its list of
embedding vectors; `asyncio.gather` returns the batch results in batch
order, so the concurrent fan-out is the in-order map below. -/

/-- The batch partition `[texts[i:i+batch_size] for i in range(0, len(texts),
batch_size)]`, written with explicit fuel (one slice consumes at least one
element whenever `batch_size > 0`, so `texts.length` much fuel suffices). -/
def chunksGo {α : Type} (batch_size : ℕ) : ℕ → List α → List (List α)
  | _, [] => []
  | 0, _ => []
  | fuel + 1, l => l.take batch_size :: chunksGo batch_size fuel (l.drop batch_size)

/-- The list of consecutive batches of size `batch_size` (last one shorter). -/
def chunks {α : Type} (batch_size : ℕ) (l : List α) : List (List α) :=
  chunksGo batch_size l.length l

/-- `LLMClient._get_openai_embeddings_batched`: a single direct call when the
input fits in one batch, otherwise gather the per-batch results over the
partition (in order) and flatten. -/
def getOpenaiEmbeddingsBatched (single : List String → List (List ℚ))
    (texts : List String) (batch_size : ℕ) : List (List ℚ) :=
  if texts.length ≤ batch_size then single texts
  else ((chunks batch_size texts).map single).flatten

/-! ## Helper lemmas -/

/-- Every failing attempt outcome makes `attemptOnce` raise the error it
carries: retry-worthy statuses raise in the explicit branch, every other
non-2xx status raises through `raise_for_status`, and network failures raise
their own error. -/
theorem attemptOnce_eq_error_of_not_success {o : AttemptOutcome}
    (h : ∀ s, o = .resp s → ¬ (200 ≤ s ∧ s < 300)) :
    attemptOnce o = .error (errOf o) := by
  cases o with
  | resp s =>
      have hs := h s rfl
      by_cases hmem : s ∈ RETRYABLE_STATUSES
      · simp [attemptOnce, errOf, hmem]
      · simp [attemptOnce, errOf, hmem, hs]
  | timeout => rfl
  | connError => rfl

/-- A retryable failure makes `attemptOnce` raise its carried error (every
retry-worthy status is ≥ 300). -/
theorem attemptOnce_of_retryable {o : AttemptOutcome} (h : IsRetryableFailure o) :
    attemptOnce o = .error (errOf o) := by
  apply attemptOnce_eq_error_of_not_success
  intro s hs
  subst hs
  simp only [IsRetryableFailure, RETRYABLE_STATUSES, List.mem_cons,
    List.not_mem_nil, or_false] at h
  omega

/-- If every attempt in the remaining budget fails (its error being caught by
the `except (httpx.HTTPError, httpx.TimeoutException)` clause), the loop
performs exactly `fuel + 1` attempts and surfaces the last attempt's error. -/
theorem requestWithRetryGo_all_error (transport : ℕ → AttemptOutcome) :
    ∀ fuel attempt,
      (∀ i, attempt ≤ i → i ≤ attempt + fuel →
        attemptOnce (transport i) = .error (errOf (transport i))) →
      requestWithRetryGo transport attempt fuel =
        (.error (errOf (transport (attempt + fuel))), fuel + 1) := by
  intro fuel
  induction fuel with
  | zero =>
      intro attempt h
      have h0 := h attempt le_rfl (by omega)
      simp [requestWithRetryGo, h0]
  | succ n ih =>
      intro attempt h
      have h0 := h attempt le_rfl (by omega)
      have hrec := ih (attempt + 1) (fun i h1 h2 => h i (by omega) (by omega))
      simp only [requestWithRetryGo, h0, hrec]
      have : attempt + 1 + n = attempt + (n + 1) := by omega
      rw [this]

/-- On a list whose keys are nondecreasing, front-pruning of the keys
strictly below the cutoff removes exactly the entries with keys below the
cutoff. -/
theorem pairwise_key_dropWhile_eq_filter {α : Type} (f : α → ℚ) (c : ℚ) :
    ∀ l : List α, l.Pairwise (fun p q => f p ≤ f q) →
      l.dropWhile (fun p => decide (f p < c)) =
        l.filter (fun p => decide (c ≤ f p)) := by
  intro l
  induction l with
  | nil => simp
  | cons a l ih =>
      intro hs
      rw [List.pairwise_cons] at hs
      by_cases h : f a < c
      · rw [List.dropWhile_cons_of_pos (by simpa using h),
          List.filter_cons_of_neg (by simpa using not_le.mpr h)]
        exact ih hs.2
      · rw [List.dropWhile_cons_of_neg (by simpa using h),
          List.filter_cons_of_pos (by simpa using not_lt.mp h)]
        congr 1
        refine (List.filter_eq_self.mpr ?_).symm
        intro x hx
        exact decide_eq_true (le_trans (not_lt.mp h) (hs.1 x hx))

/-- Front-pruning a nondecreasing list of timestamps removes exactly the
timestamps strictly below the cutoff. -/
theorem pruneTimes_sorted_eq_filter (times : List ℚ) (c : ℚ)
    (hs : times.Sorted (· ≤ ·)) :
    pruneTimes times c = times.filter (fun t => c ≤ t) :=
  pairwise_key_dropWhile_eq_filter (fun t => t) c times hs

/-- The running-total loop of `get_usage_in_window` computes the sum of the
token counts of the in-window entries. -/
theorem foldl_usage_eq_sum (c : ℚ) :
    ∀ (l : List (ℚ × ℕ)) (n : ℕ),
      l.foldl (fun total p => if c ≤ p.1 then total + p.2 else total) n =
        n + ((l.filter (fun p => c ≤ p.1)).map Prod.snd).sum := by
  intro l
  induction l with
  | nil => simp
  | cons a l ih =>
      intro n
      by_cases h : c ≤ a.1
      · rw [List.foldl_cons, if_pos h, ih, List.filter_cons]
        simp [h]
        omega
      · rw [List.foldl_cons, if_neg h, ih, List.filter_cons]
        simp [h]

/-- Flattening the batch partition recovers the input list (any positive
batch size). -/
theorem chunksGo_flatten {α : Type} (batch_size : ℕ) (hb : 0 < batch_size) :
    ∀ (fuel : ℕ) (l : List α), l.length ≤ fuel →
      (chunksGo batch_size fuel l).flatten = l := by
  intro fuel
  induction fuel with
  | zero =>
      intro l hl
      have : l = [] := List.eq_nil_of_length_eq_zero (by omega)
      subst this
      rfl
  | succ n ih =>
      intro l hl
      match l with
      | [] => rfl
      | x :: xs =>
          have hxs : xs.length ≤ n := by simpa using hl
          have hdrop : ((x :: xs).drop batch_size).length ≤ n := by
            simp only [List.length_drop, List.length_cons]
            omega
          rw [show chunksGo batch_size (n + 1) (x :: xs) =
                (x :: xs).take batch_size ::
                  chunksGo batch_size n ((x :: xs).drop batch_size) from rfl,
            List.flatten_cons, ih _ hdrop]
          exact List.take_append_drop ..

/-- `chunks` flattens back to the input list. -/
theorem chunks_flatten {α : Type} (batch_size : ℕ) (hb : 0 < batch_size)
    (l : List α) : (chunks batch_size l).flatten = l :=
  chunksGo_flatten batch_size hb l.length l le_rfl

/-- The requests-per-minute step always returns the pruned deque as its
state, whether or not it admits. -/
theorem waitForRateLimitStep_fst (rpm : ℕ) (times : List ℚ) (now : ℚ) :
    (waitForRateLimitStep rpm times now).1 =
      pruneTimes times (now - DEFAULT_WINDOW_SIZE) := by
  unfold waitForRateLimitStep
  by_cases h : (pruneTimes times (now - DEFAULT_WINDOW_SIZE)).length < rpm <;>
    simp [h]

/-- The requests-per-minute step admits exactly when the pruned count is
under the cap. -/
theorem waitForRateLimitStep_none_iff (rpm : ℕ) (times : List ℚ) (now : ℚ) :
    (waitForRateLimitStep rpm times now).2 = none ↔
      (pruneTimes times (now - DEFAULT_WINDOW_SIZE)).length < rpm := by
  unfold waitForRateLimitStep
  by_cases h : (pruneTimes times (now - DEFAULT_WINDOW_SIZE)).length < rpm <;>
    simp [h]

/-- A sequential `acquire` attempt is admitted exactly when both admission
checks pass. -/
theorem seqAcquire_admitted_iff (cfg : RateLimitConfig) (s : LimiterState)
    (now : ℚ) (estimated_tokens : ℕ) :
    (seqAcquire cfg s now estimated_tokens).2 = true ↔
      (waitForRateLimitStep cfg.requests_per_minute s.request_times now).2 =
          none ∧
      waitForTokenLimitStep cfg.tokens_per_minute s.tracker now
          estimated_tokens = none := by
  by_cases h1 :
      (waitForRateLimitStep cfg.requests_per_minute s.request_times now).2 =
        none
  · by_cases h2 : waitForTokenLimitStep cfg.tokens_per_minute s.tracker now
        estimated_tokens = none
    · simp [seqAcquire, h1, h2]
    · simp [seqAcquire, h1, h2]
  · simp [seqAcquire, h1]

/-- A sequential `acquire` attempt never leaves more than
`requests_per_minute` recorded timestamps if it starts with no more than
that. -/
theorem seqAcquire_length_le (cfg : RateLimitConfig) (s : LimiterState)
    (now : ℚ) (estimated_tokens : ℕ)
    (h : s.request_times.length ≤ cfg.requests_per_minute) :
    ((seqAcquire cfg s now estimated_tokens).1).request_times.length ≤
      cfg.requests_per_minute := by
  have hprune :
      (pruneTimes s.request_times (now - DEFAULT_WINDOW_SIZE)).length ≤
        s.request_times.length :=
    (List.dropWhile_sublist _).length_le
  by_cases h1 :
      (waitForRateLimitStep cfg.requests_per_minute s.request_times now).2 =
        none
  · have hlt := (waitForRateLimitStep_none_iff _ _ _).mp h1
    by_cases h2 : waitForTokenLimitStep cfg.tokens_per_minute s.tracker now
        estimated_tokens = none
    · simp only [seqAcquire, h1, h2, if_pos, waitForRateLimitStep_fst,
        List.length_append, List.length_singleton]
      omega
    · simp only [seqAcquire, h1, h2, if_pos, if_neg, not_false_iff,
        waitForRateLimitStep_fst]
      omega
  · simp only [seqAcquire, h1, if_neg, not_false_iff,
      waitForRateLimitStep_fst]
    omega

/-- `release` does not touch the request-timestamp deque. -/
theorem seqRelease_request_times (s : LimiterState) (now : ℚ) (tokens : ℕ) :
    (seqRelease s now tokens).request_times = s.request_times := by
  unfold seqRelease
  split_ifs <;> rfl

/-- Sequential histories never accumulate more than `requests_per_minute`
recorded request timestamps. -/
theorem runEvents_length_le (cfg : RateLimitConfig)
    (es : List LimiterEvent) :
    ∀ s : LimiterState,
      s.request_times.length ≤ cfg.requests_per_minute →
      (runEvents cfg s es).request_times.length ≤ cfg.requests_per_minute := by
  induction es with
  | nil => exact fun s h => h
  | cons e es ih =>
      intro s h
      cases e with
      | acquire now est =>
          exact ih _ (seqAcquire_length_le cfg s now est h)
      | release now tokens =>
          refine ih _ ?_
          simp only [LimiterState.step, seqRelease_request_times]
          exact h

/-! ## Claim theorems -/

/-- C3: for every `max_retries ≥ 0`, if every attempt of the underlying
transport yields a retryable failure (HTTP status in {429, 500, 502, 503,
504}, a timeout, or a connection error), `_request_with_retry` performs
exactly `max_retries + 1` attempts and then raises the last underlying error
to the caller. -/
theorem C3_retry_exhaustion (transport : ℕ → AttemptOutcome) (max_retries : ℕ)
    (h : ∀ i, i ≤ max_retries → IsRetryableFailure (transport i)) :
    requestWithRetry transport max_retries =
      (.error (errOf (transport max_retries)), max_retries + 1) := by
  have := requestWithRetryGo_all_error transport max_retries 0
    (fun i h1 h2 => attemptOnce_of_retryable (h i (by omega)))
  simpa [requestWithRetry] using this

/-- C3 witness: a transport that always returns HTTP 503 with
`max_retries = 3` makes exactly 4 attempts and then raises. -/
theorem C3_retry_exhaustion_witness :
    requestWithRetry (fun _ => .resp 503) 3 = (.error (.statusErr 503), 4) :=
  C3_retry_exhaustion (fun _ => .resp 503) 3
    (fun i _ => by show IsRetryableFailure (.resp 503); decide)

/-- C4 counterexample: with a transport that always returns HTTP 404 and
`max_retries = 1`, `_request_with_retry` performs 2 attempts, not 1 — the
`HTTPStatusError` raised by `raise_for_status` for the non-retryable 4xx is
caught by the `except (httpx.HTTPError, httpx.TimeoutException)` clause
(`HTTPStatusError` subclasses `HTTPError`), so the 404 is retried with
backoff instead of surfacing immediately. -/
theorem C4_counterexample :
    requestWithRetry (fun _ => .resp 404) 1 = (.error (.statusErr 404), 2) ∧
      (2 : ℕ) ≠ 1 := by
  exact ⟨rfl, by decide⟩

/-- C4 amended: for every HTTP response whose status is a 4xx other than 429
(e.g. 404), `_request_with_retry` does NOT surface the error immediately:
the status error raised by `raise_for_status` is caught by the same handler
as retryable failures, so the request is retried with backoff and the error
surfaces only after `max_retries + 1` attempts. -/
theorem C4_non_retryable_4xx_retried (s max_retries : ℕ)
    (h4 : 400 ≤ s) (h5 : s < 500) (_h429 : s ≠ 429) :
    requestWithRetry (fun _ => .resp s) max_retries =
      (.error (.statusErr s), max_retries + 1) := by
  have herr : attemptOnce (.resp s) = .error (errOf (.resp s)) :=
    attemptOnce_eq_error_of_not_success (by intro s' hs'; cases hs'; omega)
  have := requestWithRetryGo_all_error (fun _ => .resp s) max_retries 0
    (fun i _ _ => herr)
  simpa [requestWithRetry, errOf] using this

/-- C4 witness for the amended claim: a transport that always returns 404
with `max_retries = 3` performs 4 attempts and then raises the 404 error. -/
theorem C4_non_retryable_4xx_retried_witness :
    (400 ≤ 404 ∧ 404 < 500 ∧ 404 ≠ 429) ∧
      requestWithRetry (fun _ => .resp 404) 3 =
        (.error (.statusErr 404), 3 + 1) :=
  ⟨by omega,
    C4_non_retryable_4xx_retried 404 3 (by omega) (by omega) (by omega)⟩

/-- C1: no concurrency permit is ever leaked.  Whenever `RateLimiter.acquire`
exits by raising, and whenever `RateLimitedLLMClient.generate` or
`get_embeddings` exits (by returning or by raising), the semaphore slot
acquired at the start of that call has been released exactly once, so the
number of held permits returns to what it was before the call. -/
theorem C1_no_permit_leak :
    (∀ (ε : Type) (e : ε),
        (acquireFlow (.error e)).heldDelta = 0 ∧
        (acquireFlow (.error e)).semReleases = 1) ∧
    (∀ (ε : Type) (system_prompt user_prompt : String)
        (innerWaits : Except ε Unit) (raw : Except ε String),
        (generateFlow system_prompt user_prompt innerWaits raw).heldDelta = 0 ∧
        (generateFlow system_prompt user_prompt innerWaits raw).semReleases = 1) ∧
    (∀ (ε : Type) (texts : List String)
        (innerWaits : Except ε Unit) (raw : Except ε (List (List ℚ))),
        (getEmbeddingsFlow texts innerWaits raw).heldDelta = 0 ∧
        (getEmbeddingsFlow texts innerWaits raw).semReleases = 1) := by
  refine ⟨fun ε e => ⟨rfl, rfl⟩, fun ε s u innerWaits raw => ?_,
    fun ε texts innerWaits raw => ?_⟩
  · cases innerWaits <;> cases raw <;>
      simp [generateFlow, acquireFlow]
  · cases innerWaits <;> cases raw <;>
      simp [getEmbeddingsFlow, acquireFlow]

/-- C5: one iteration of the requests-per-minute admission loop, under the
critical section, first removes all recorded request timestamps older than
`now - 60`; if the remaining count is strictly below `requests_per_minute` it
admits immediately (`none`), and otherwise it reports
`wait = max(0, 60 - (now - oldest_surviving_timestamp) + 1)` to sleep
(plus jitter, yielding instead of sleeping when the wait is zero) before the
loop re-checks from the top. -/
theorem C5_rpm_admission_step (rpm : ℕ) (times : List ℚ) (now : ℚ)
    (hrpm : 0 < rpm) (hsorted : times.Sorted (· ≤ ·)) :
    (waitForRateLimitStep rpm times now).1 =
        times.filter (fun t => now - DEFAULT_WINDOW_SIZE ≤ t) ∧
    ((waitForRateLimitStep rpm times now).2 = none ↔
        (waitForRateLimitStep rpm times now).1.length < rpm) ∧
    ∀ w, (waitForRateLimitStep rpm times now).2 = some w →
      ∃ oldest, (waitForRateLimitStep rpm times now).1.head? = some oldest ∧
        w = max 0 (DEFAULT_WINDOW_SIZE - (now - oldest) + DEFAULT_SAFETY_MARGIN) := by
  have hfilter := pruneTimes_sorted_eq_filter times (now - DEFAULT_WINDOW_SIZE) hsorted
  unfold waitForRateLimitStep
  by_cases hlen : (pruneTimes times (now - DEFAULT_WINDOW_SIZE)).length < rpm
  · simp only [hlen, if_pos]
    exact ⟨hfilter, by simp [hlen], by simp⟩
  · simp only [hlen, if_neg, not_false_iff]
    refine ⟨hfilter, by simp [hlen], ?_⟩
    intro w hw
    have hne : pruneTimes times (now - DEFAULT_WINDOW_SIZE) ≠ [] := by
      intro hnil
      rw [hnil] at hlen
      simp at hlen
      omega
    match hp : pruneTimes times (now - DEFAULT_WINDOW_SIZE) with
    | [] => exact absurd hp hne
    | a :: rest =>
        refine ⟨a, by simp, ?_⟩
        rw [hp] at hw
        simp only [List.headD_cons] at hw
        exact (Option.some_injective _ hw).symm

/-- C5 witness: with `requests_per_minute = 1`, recorded times `[0, 10]` and
`now = 30`, the step keeps both in-window timestamps, does not admit, and
reports `wait = max 0 (60 - (30 - 0) + 1) = 31` from the oldest survivor. -/
theorem C5_rpm_admission_step_witness :
    (0 < 1 ∧ ([0, 10] : List ℚ).Sorted (· ≤ ·)) ∧
      ((waitForRateLimitStep 1 [0, 10] 30).1 =
          [0, 10].filter (fun t => (30 : ℚ) - DEFAULT_WINDOW_SIZE ≤ t) ∧
        ((waitForRateLimitStep 1 [0, 10] 30).2 = none ↔
          (waitForRateLimitStep 1 [0, 10] 30).1.length < 1) ∧
        ∀ w, (waitForRateLimitStep 1 [0, 10] 30).2 = some w →
          ∃ oldest, (waitForRateLimitStep 1 [0, 10] 30).1.head? = some oldest ∧
            w = max 0 (DEFAULT_WINDOW_SIZE - (30 - oldest) + DEFAULT_SAFETY_MARGIN)) :=
  ⟨⟨by decide, by decide⟩,
    C5_rpm_admission_step 1 [0, 10] 30 (by decide) (by decide)⟩

/-- C6: one iteration of the tokens-per-minute admission loop reads the
current usage from the token tracker and admits (`none`) if and only if
`current_usage + estimated_tokens ≤ tokens_per_minute`; otherwise it sleeps
exactly one full 60-second window duration before re-checking, never a
shorter computed remainder. -/
theorem C6_token_admission_step (tpm estimated_tokens : ℕ) (tt : TokenTracker)
    (now : ℚ) :
    (waitForTokenLimitStep tpm tt now estimated_tokens = none ↔
        tt.get_usage_in_window now + estimated_tokens ≤ tpm) ∧
    ∀ w, waitForTokenLimitStep tpm tt now estimated_tokens = some w →
      w = DEFAULT_WINDOW_SIZE := by
  unfold waitForTokenLimitStep
  by_cases h : tpm < tt.get_usage_in_window now + estimated_tokens
  · simp only [h, if_pos]
    exact ⟨by simp; omega, fun w hw => (Option.some_injective _ hw).symm⟩
  · simp only [h, if_neg, not_false_iff]
    exact ⟨by simp; omega, by simp⟩

/-- C6 witness: with a ledger holding 50 in-window tokens at `now = 10`,
`tokens_per_minute = 100` and a 100-token estimate, the step does not admit
and sleeps exactly the full 60-second window. -/
theorem C6_token_admission_step_witness :
    waitForTokenLimitStep 100 ⟨60, [(0, 50)]⟩ 10 100 = some DEFAULT_WINDOW_SIZE ∧
      (60 : ℚ) = DEFAULT_WINDOW_SIZE :=
  ⟨by norm_num [waitForTokenLimitStep, TokenTracker.get_usage_in_window,
      List.foldl, DEFAULT_WINDOW_SIZE],
    (C6_token_admission_step 100 100 ⟨60, [(0, 50)]⟩ 10).2 60
      (by norm_num [waitForTokenLimitStep, TokenTracker.get_usage_in_window,
        List.foldl, DEFAULT_WINDOW_SIZE])⟩

/-- C7: for every `system_prompt`, `user_prompt` and successful raw-client
result string, the wrapper's `generate` calls `acquire` with
`estimated_tokens = len(system_prompt + user_prompt) // 4`, and on success
calls `release` with `actual_tokens = len(result) // 4` plus that same
estimate, returning the raw result unchanged. -/
theorem C7_generate_token_accounting (ε : Type)
    (system_prompt user_prompt result : String) :
    (generateFlow (ε := ε) system_prompt user_prompt (.ok ()) (.ok result)).acquireArg =
        (system_prompt.length + user_prompt.length) /
          DEFAULT_TOKEN_ESTIMATION_RATIO ∧
    (generateFlow (ε := ε) system_prompt user_prompt (.ok ()) (.ok result)).releaseArgs =
        [result.length / DEFAULT_TOKEN_ESTIMATION_RATIO +
          (system_prompt.length + user_prompt.length) /
            DEFAULT_TOKEN_ESTIMATION_RATIO] ∧
    (generateFlow (ε := ε) system_prompt user_prompt (.ok ()) (.ok result)).result =
        .ok result := by
  refine ⟨?_, ?_, rfl⟩ <;>
    simp [generateFlow, acquireFlow, String.length_append]

/-- C8: for every input list of texts and every `batch_size > 0`, assuming
the per-batch call returns one embedding per input text in input order, the
batched embedding function's flattened output has the same length as the
input list and its i-th element is the embedding of the i-th input text,
i.e. the concatenation of the per-batch results over the in-order partition
equals the result of a single call on the whole list. -/
theorem C8_embedding_order_preservation
    (single : List String → List (List ℚ)) (embed : String → List ℚ)
    (texts : List String) (batch_size : ℕ) (hb : 0 < batch_size)
    (hsingle : ∀ l, single l = l.map embed) :
    getOpenaiEmbeddingsBatched single texts batch_size = single texts ∧
    (getOpenaiEmbeddingsBatched single texts batch_size).length =
        texts.length ∧
    ∀ i : ℕ, (getOpenaiEmbeddingsBatched single texts batch_size)[i]? =
        texts[i]?.map embed := by
  have key : getOpenaiEmbeddingsBatched single texts batch_size =
      texts.map embed := by
    unfold getOpenaiEmbeddingsBatched
    split
    · exact hsingle texts
    · have hfun : single = fun l => l.map embed := funext hsingle
      calc ((chunks batch_size texts).map single).flatten
          = ((chunks batch_size texts).map (List.map embed)).flatten := by
            rw [hfun]
        _ = ((chunks batch_size texts).flatten).map embed :=
            (List.map_flatten ..).symm
        _ = texts.map embed := by rw [chunks_flatten batch_size hb texts]
  exact ⟨by rw [key, hsingle], by rw [key, List.length_map],
    fun i => by rw [key, List.getElem?_map]⟩

/-- C8 witness: three texts in batches of two; the flattened output equals
the single-call result, has the input's length, and matches index by
index. -/
theorem C8_embedding_order_preservation_witness :
    getOpenaiEmbeddingsBatched
        (fun l => l.map (fun s => [(s.length : ℚ)])) ["a", "bb", "ccc"] 2 =
      (fun l : List String => l.map (fun s => [(s.length : ℚ)]))
        ["a", "bb", "ccc"] ∧
    (getOpenaiEmbeddingsBatched
        (fun l => l.map (fun s => [(s.length : ℚ)])) ["a", "bb", "ccc"]
        2).length = (["a", "bb", "ccc"] : List String).length ∧
    ∀ i : ℕ, (getOpenaiEmbeddingsBatched
        (fun l => l.map (fun s => [(s.length : ℚ)])) ["a", "bb", "ccc"]
        2)[i]? =
      (["a", "bb", "ccc"] : List String)[i]?.map (fun s => [(s.length : ℚ)]) :=
  C8_embedding_order_preservation
    (fun l => l.map (fun s => [(s.length : ℚ)])) (fun s => [(s.length : ℚ)])
    ["a", "bb", "ccc"] 2 (by decide) (fun l => rfl)

/-- C9 counterexample: the claim says `get_usage_in_window` removes the
stale records from the ledger, but the method body only reads the deque.
With ledger `[(0, 5), (100, 7)]` and `now = 100` (window 60), the claimed
prune would leave `[(100, 7)]`, a ledger different from the one the call
actually leaves behind (the embedded method has no state effect at all,
matching the Python body, which never pops). -/
theorem C9_counterexample :
    TokenTracker.get_usage_in_window ⟨60, [(0, 5), (100, 7)]⟩ 100 = 7 ∧
    (getUsageInWindowSpec ⟨60, [(0, 5), (100, 7)]⟩ 100).1.usage_history =
      [(100, 7)] ∧
    ([(100, 7)] : List (ℚ × ℕ)) ≠ [(0, 5), (100, 7)] := by
  refine ⟨?_, ?_, by decide⟩ <;>
    norm_num [TokenTracker.get_usage_in_window, getUsageInWindowSpec,
      List.foldl, List.filter]

/-- C9 amended: `get_usage_in_window` leaves the ledger unchanged — it does
not prune — and returns the sum of the token counts of the records whose
timestamp is within the window, which is exactly the total that the claimed
prune-then-sum would return. -/
theorem C9_get_usage_is_pure_window_sum (tt : TokenTracker) (now : ℚ) :
    tt.get_usage_in_window now = (getUsageInWindowSpec tt now).2 := by
  unfold TokenTracker.get_usage_in_window getUsageInWindowSpec
  simpa using foldl_usage_eq_sum (now - tt.window_size) tt.usage_history 0

/-- C2 counterexample: the in-window token-sum bound is not an invariant,
even sequentially.  With `tokens_per_minute = 100`, an `acquire` with an
80-token estimate is admitted against an empty ledger; the subsequent
`release` records 150 actual tokens, leaving 150 in-window tokens — above
the cap — at instant 1. -/
theorem C2_counterexample :
    (seqAcquire { tokens_per_minute := 100 } {} 0 80).2 = true ∧
    (runEvents { tokens_per_minute := 100 } {}
        [.acquire 0 80, .release 1 150]).tracker.get_usage_in_window 1 =
      150 ∧
    ¬ (150 ≤ ({ tokens_per_minute := 100 } : RateLimitConfig).tokens_per_minute) := by
  refine ⟨?_, ?_, by decide⟩
  · norm_num [seqAcquire, waitForRateLimitStep, waitForTokenLimitStep,
      pruneTimes, TokenTracker.get_usage_in_window, List.foldl,
      List.dropWhile, DEFAULT_WINDOW_SIZE]
  · norm_num [runEvents, LimiterState.step, seqAcquire, seqRelease,
      waitForRateLimitStep, waitForTokenLimitStep, pruneTimes,
      TokenTracker.get_usage_in_window, TokenTracker.add_usage,
      List.foldl, List.dropWhile, DEFAULT_WINDOW_SIZE]

/-- C2 amended: in the sequential model (no interleaving between an
admission check and its recording), the count of recorded request
timestamps lying within the trailing 60-second window never exceeds
`requests_per_minute` after any history of acquire/release events; for the
token budget only the admission-time guarantee holds: an `acquire` is
admitted only when the in-window usage plus its estimate is at most
`tokens_per_minute` (the ledger sum itself may later exceed the cap once
actual usage is recorded, as the counterexample shows). -/
theorem C2_sequential_window_bounds (cfg : RateLimitConfig)
    (es : List LimiterEvent) (t : ℚ) :
    countInWindow (runEvents cfg {} es).request_times t ≤
        cfg.requests_per_minute ∧
    ∀ (s : LimiterState) (now : ℚ) (est : ℕ),
      (seqAcquire cfg s now est).2 = true →
      s.tracker.get_usage_in_window now + est ≤ cfg.tokens_per_minute := by
  constructor
  · have hlen := runEvents_length_le cfg es {} (by simp)
    exact le_trans (List.length_filter_le _ _) hlen
  · intro s now est h
    have htok := ((seqAcquire_admitted_iff cfg s now est).mp h).2
    unfold waitForTokenLimitStep at htok
    by_cases h3 : cfg.tokens_per_minute <
        s.tracker.get_usage_in_window now + est
    · rw [if_pos h3] at htok
      exact absurd htok (by simp)
    · omega

/-- C2 witness for the amended claim: an empty limiter admits an 80-token
estimate under a 100-token budget, so the admission-time bound holds at
that input; and the empty history keeps the request count at zero. -/
theorem C2_sequential_window_bounds_witness :
    ({} : LimiterState).tracker.get_usage_in_window 0 + 80 ≤
      ({ tokens_per_minute := 100 } : RateLimitConfig).tokens_per_minute :=
  (C2_sequential_window_bounds { tokens_per_minute := 100 } [] 0).2
    {} 0 80
    (by norm_num [seqAcquire, waitForRateLimitStep, waitForTokenLimitStep,
      pruneTimes, TokenTracker.get_usage_in_window, List.foldl,
      List.dropWhile, DEFAULT_WINDOW_SIZE])

/-- C10: assuming the monotonic clock is nondecreasing across calls, the
timestamp sequences stay nondecreasing after every operation: `add_usage`
appends at the back with the current time and front-prunes (conjunct 1), the
limiter's request recording appends the current time after front-pruning
(conjunct 2), and on a nondecreasing sequence front-pruning up to the cutoff
removes exactly the out-of-window entries (conjuncts 3 and 4). -/
theorem C10_ledger_monotone :
    (∀ (tt : TokenTracker) (now : ℚ) (tokens : ℕ),
        tt.usage_history.Pairwise (fun p q => p.1 ≤ q.1) →
        (∀ p ∈ tt.usage_history, p.1 ≤ now) →
        (tt.add_usage now tokens).usage_history.Pairwise
          (fun p q => p.1 ≤ q.1)) ∧
    (∀ (times : List ℚ) (now : ℚ),
        times.Sorted (· ≤ ·) → (∀ x ∈ times, x ≤ now) →
        (pruneTimes times (now - DEFAULT_WINDOW_SIZE) ++ [now]).Sorted
          (· ≤ ·)) ∧
    (∀ (times : List ℚ) (c : ℚ), times.Sorted (· ≤ ·) →
        pruneTimes times c = times.filter (fun x => c ≤ x)) ∧
    (∀ (l : List (ℚ × ℕ)) (c : ℚ),
        l.Pairwise (fun p q => p.1 ≤ q.1) →
        l.dropWhile (fun p => p.1 < c) = l.filter (fun p => c ≤ p.1)) := by
  refine ⟨?_, ?_, ?_, ?_⟩
  · intro tt now tokens hpair hle
    have happ : (tt.usage_history ++ [(now, tokens)]).Pairwise
        (fun p q => p.1 ≤ q.1) := by
      rw [List.pairwise_append]
      refine ⟨hpair, by simp, ?_⟩
      intro p hp q hq
      rw [List.mem_singleton] at hq
      subst hq
      exact hle p hp
    exact happ.sublist (List.dropWhile_sublist _)
  · intro times now hs hle
    have hpruned : (pruneTimes times (now - DEFAULT_WINDOW_SIZE)).Sorted
        (· ≤ ·) := hs.sublist (List.dropWhile_sublist _)
    refine List.pairwise_append.mpr ⟨hpruned, by simp, ?_⟩
    intro x hx y hy
    rw [List.mem_singleton] at hy
    subst hy
    exact hle x ((List.dropWhile_sublist _).subset hx)
  · intro times c hs
    exact pairwise_key_dropWhile_eq_filter (fun x => x) c times hs
  · intro l c hpair
    exact pairwise_key_dropWhile_eq_filter Prod.fst c l hpair

/-- C10 witness: a one-entry ledger with timestamp 0 stays nondecreasing
after `add_usage` at time 1. -/
theorem C10_ledger_monotone_witness :
    (([(0, 5)] : List (ℚ × ℕ)).Pairwise (fun p q => p.1 ≤ q.1) ∧
      ∀ p ∈ ([(0, 5)] : List (ℚ × ℕ)), p.1 ≤ 1) ∧
    ((⟨60, [(0, 5)]⟩ : TokenTracker).add_usage 1 2).usage_history.Pairwise
      (fun p q => p.1 ≤ q.1) :=
  ⟨⟨by decide, by decide⟩,
    C10_ledger_monotone.1 ⟨60, [(0, 5)]⟩ 1 2 (by decide) (by decide)⟩

end RateLimiterModel
